import Mathlib

set_option maxRecDepth 8000

/-!
Shallow embedding of the record parser of `src/Sonnet4/complete_pdf_extrator.py`
(`CompletePDFExtractor.parse_page_content_to_json`, lines 140-242), together
with proofs about it.

Modelling conventions:
* Python strings are `String` / `List Char`.  Each regular expression of the
  source is hand-compiled to a deterministic matcher; every matcher is
  documented with the regex it implements, including greediness, laziness and
  alternation order.  `re.search` is the leftmost-success scan `scan1`,
  `re.findall` is the non-overlapping leftmost scan `findallA` / `findallB`.
* Python `float` values are modelled as exact rationals `ℚ`; the numeric
  strings the claims exercise are finite decimals, whose values are exact.
  `pyFloat?` models `float(str)` on sign/digits/point/exponent forms;
  underscore digit grouping, infinity and NaN literals and non-ASCII digits
  are treated as non-numeric, and `\d` `\w` are read as their ASCII classes
  (no claim exercises the difference).
* Python exceptions are modelled by `Except PyErr`: `ValueError` from
  `float(...)` on a non-numeric string, `IndexError` from `cols[i]` with
  `i ≥ len(cols)`.  A `for` loop that can raise is `exMapM`: the first
  failure aborts the whole call, as an exception aborts the function.
-/

inductive PyErr where
  | valueError
  | indexError
deriving DecidableEq, Repr

/-- The whitespace set of Python `str.strip()` (ASCII part). -/
def isPySpace (c : Char) : Bool :=
  c = ' ' || c = '\t' || c = '\n' || c = '\r' || c = '\x0b' || c = '\x0c'

/-- Python `str.strip()` on a character list. -/
def pyStripL (l : List Char) : List Char :=
  ((l.dropWhile isPySpace).reverse.dropWhile isPySpace).reverse

/-- Python `str.strip()`. -/
def pyStrip (s : String) : String := String.mk (pyStripL s.data)

/-- Python `str.replace(",", "")`. -/
def stripCommas (s : String) : String := String.mk (s.data.filter (fun c => c != ','))

/-- Python `str.split(sep)` for a one-character separator (the source only
splits on `"|"` and `"\n"`). -/
def pySplitChar (sep : Char) : List Char → List (List Char)
  | [] => [[]]
  | c :: cs =>
    if c = sep then [] :: pySplitChar sep cs
    else
      match pySplitChar sep cs with
      | [] => [[c]]
      | h :: t => (c :: h) :: t

def digitsNat (l : List Char) : ℕ := l.foldl (fun a c => 10 * a + (c.toNat - 48)) 0

def digitsVal (l : List Char) : ℚ := (digitsNat l : ℚ)

/-- Exponent part of a Python float literal: empty, or `(e|E)[+-]?D+`
consuming the whole rest; the result is the scale factor. -/
def pyExpPart : List Char → Option ℚ
  | [] => some 1
  | c :: t =>
    if c = 'e' ∨ c = 'E' then
      let st : ℤ × List Char :=
        match t with
        | '+' :: r => (1, r)
        | '-' :: r => (-1, r)
        | _ => (1, t)
      let ds := st.2.takeWhile Char.isDigit
      if ds = [] ∨ st.2.drop ds.length ≠ [] then none
      else some ((10 : ℚ) ^ (st.1 * (digitsNat ds : ℤ)))
    else none

/-- `float(s)` after whitespace stripping:
`[+-]? ( D+ [. D*] | . D+ ) [(e|E) [+-]? D+]`. -/
def pyFloatCore (l : List Char) : Option ℚ :=
  let sl : ℚ × List Char :=
    match l with
    | '+' :: t => (1, t)
    | '-' :: t => (-1, t)
    | _ => (1, l)
  let ip := sl.2.takeWhile Char.isDigit
  let l2 := sl.2.drop ip.length
  match l2 with
  | '.' :: l3 =>
    let fp := l3.takeWhile Char.isDigit
    let l4 := l3.drop fp.length
    if ip = [] ∧ fp = [] then none
    else (pyExpPart l4).map fun e => sl.1 * (digitsVal ip + digitsVal fp / 10 ^ fp.length) * e
  | _ =>
    if ip = [] then none
    else (pyExpPart l2).map fun e => sl.1 * digitsVal ip * e

/-- Python `float(s)`, as an exact rational when it succeeds. -/
def pyFloat? (s : String) : Option ℚ := pyFloatCore (pyStripL s.data)

/-! ### Matching primitives -/

/-- Match a literal at the head of the input, returning the rest. -/
def lit : List Char → List Char → Option (List Char)
  | [], l => some l
  | _ :: _, [] => none
  | p :: ps, c :: cs => if c = p then lit ps cs else none

/-- Case-insensitive literal (`re.IGNORECASE`, ASCII). -/
def litCI : List Char → List Char → Option (List Char)
  | [], l => some l
  | _ :: _, [] => none
  | p :: ps, c :: cs => if c.toLower = p.toLower then litCI ps cs else none

/-- Greedy `[class]*`: the longest prefix satisfying `p`, and the rest. -/
def clsMany (p : Char → Bool) : List Char → List Char × List Char
  | [] => ([], [])
  | c :: cs =>
    if p c then
      match clsMany p cs with
      | (m, r) => (c :: m, r)
    else ([], c :: cs)

/-- Greedy `[class]+`. -/
def cls1 (p : Char → Bool) (l : List Char) : Option (List Char × List Char) :=
  match l with
  | [] => none
  | c :: cs =>
    if p c then
      match clsMany p cs with
      | (m, r) => some (c :: m, r)
    else none

/-- Exactly `n` characters satisfying `p` (for the `{n}` repetitions of the
date pattern). -/
def ntake (p : Char → Bool) : Nat → List Char → Option (List Char × List Char)
  | 0, l => some ([], l)
  | _ + 1, [] => none
  | n + 1, c :: cs =>
    if p c then
      match ntake p n cs with
      | some (m, r) => some (c :: m, r)
      | none => none
    else none

/-- `re.search`: try the matcher at every position, leftmost success wins. -/
def scan1 {α : Type} (m : List Char → Option α) : List Char → Option α
  | [] => none
  | c :: cs =>
    match m (c :: cs) with
    | some v => some v
    | none => scan1 m cs

/-! ### Character classes of the source's regexes -/

def isConcChar (c : Char) : Bool := c.isDigit || c = '.'

def isValChar (c : Char) : Bool := c.isDigit || c = '.' || c = 'e' || c = ','

def isDateChar (c : Char) : Bool := c.isDigit || c = '-' || c = ':' || c = ' '

def isWordChar (c : Char) : Bool := c.isAlphanum || c = '_'

/-- `.` outside DOTALL mode: any character except a newline. -/
def notNL (c : Char) : Bool := c != '\n'

/-! ### Literal fragments of the source's regexes -/

def docTitleLbl : List Char := ("# Document Analysis - ").data

def titleLbl : List Char := ("**Title:** ").data

def qcLbl : List Char := ("QC Verified Protocols/").data

def qcTail : List Char := (" - Document Status").data

def statusLbl : List Char := ("Document Status: ").data

def wlLbl : List Char := ("**Wavelength Combination:** ").data

def instrLbl : List Char := ("**Instrument:** ").data

def romLbl : List Char := ("**ROM:** ").data

def startReadLbl : List Char := ("**Start Read:** ").data

def tempLbl : List Char := ("**Mean Temperature:** ").data

def degC : String := "°C"

def readByLbl : List Char := ("**Read By:** ").data

def wellPfx : List Char := ("- **").data

def wellSep : List Char := ("**: ").data

def stdMid : List Char := (" Std - ").data

def reducedLbl : List Char := (" (Reduced: ").data

def dateLbl : List Char := (") - Date: ").data

def ctrlSep : List Char := (" - ").data

def noDataLit : List Char := ("Date: No Data").data

def tableHeading : List Char := ("## Standards Table\n").data

def keyCalcLbl : List Char := ("## Key Calculations\n**").data

/-! ### The single-field matchers (one per `re.search` of the source) -/

/-- A single character equal to `x`. -/
def chLit (x : Char) : List Char → Option (List Char)
  | [] => none
  | c :: cs => if c = x then some cs else none

/-- A single character satisfying `p`. -/
def chPred (p : Char → Bool) : List Char → Option (Char × List Char)
  | [] => none
  | c :: cs => if p c then some (c, cs) else none

/-- A literal label followed by a greedy `(.+)` (used for
`# Document Analysis - (.+)`, `\*\*Title:\*\* (.+)`, `\*\*Instrument:\*\* (.+)`,
`\*\*ROM:\*\* (.+)`, `\*\*Start Read:\*\* (.+)`). -/
def matchLabeled (lbl : List Char) (l : List Char) : Option String :=
  (lit lbl l).bind fun r =>
  (cls1 notNL r).bind fun vr =>
  some (String.mk vr.1)

/-- Case-insensitive variant, for `\*\*Read By:\*\* (.+)` with `re.IGNORECASE`. -/
def matchLabeledCI (lbl : List Char) (l : List Char) : Option String :=
  (litCI lbl l).bind fun r =>
  (cls1 notNL r).bind fun vr =>
  some (String.mk vr.1)

/-- A literal label followed by `(\w+)` (for `Document Status: (\w+)` and
`\*\*Wavelength Combination:\*\* (\w+)`). -/
def matchWord (lbl : List Char) (l : List Char) : Option String :=
  (lit lbl l).bind fun r =>
  (cls1 isWordChar r).bind fun vr =>
  some (String.mk vr.1)

/-- Lazy `(.+?)` before a literal continuation: the smallest nonempty
non-newline prefix after which `tl` matches (for
`QC Verified Protocols/(.+?) - Document Status`). -/
def lazyUntil (tl : List Char) : List Char → List Char → Option String
  | _, [] => none
  | acc, c :: cs =>
    if c = '\n' then none
    else if (lit tl cs).isSome then some (String.mk (c :: acc).reverse)
    else lazyUntil tl (c :: acc) cs

def matchQC (l : List Char) : Option String :=
  (lit qcLbl l).bind fun r => lazyUntil qcTail [] r

/-- `\*\*(\d{2}-[A-Za-z]{3}-\d{4} \d{2}:\d{2}:\d{2})\*\*`. -/
def matchDate (l : List Char) : Option String :=
  (lit ['*', '*'] l).bind fun r0 =>
  (ntake Char.isDigit 2 r0).bind fun dd =>
  (chLit '-' dd.2).bind fun r1 =>
  (ntake Char.isAlpha 3 r1).bind fun mon =>
  (chLit '-' mon.2).bind fun r2 =>
  (ntake Char.isDigit 4 r2).bind fun yy =>
  (chLit ' ' yy.2).bind fun r3 =>
  (ntake Char.isDigit 2 r3).bind fun hh =>
  (chLit ':' hh.2).bind fun r4 =>
  (ntake Char.isDigit 2 r4).bind fun mi =>
  (chLit ':' mi.2).bind fun r5 =>
  (ntake Char.isDigit 2 r5).bind fun ss =>
  (lit ['*', '*'] ss.2).bind fun _ =>
  some (String.mk (dd.1 ++ '-' :: mon.1 ++ '-' :: yy.1 ++ ' ' :: hh.1 ++ ':' :: mi.1 ++ ':' :: ss.1))

/-- `\*\*Mean Temperature:\*\* ([\d\.]+)°C`; the source stores
`group(1) + "°C"`. -/
def matchTemp (l : List Char) : Option String :=
  (lit tempLbl l).bind fun r =>
  (cls1 isConcChar r).bind fun vr =>
  (lit degC.data vr.2).bind fun _ =>
  some (String.mk vr.1 ++ degC)

/-- The greedy `(.+)` of `## Key Calculations\n\*\*(.+)\*\*`: the longest
nonempty prefix of the input that is followed by `**`. -/
def lastPre2Stars : List Char → Option (List Char)
  | [] => none
  | c :: cs =>
    match lastPre2Stars cs with
    | some g => some (c :: g)
    | none => if cs.take 2 = ['*', '*'] then some [c] else none

def matchKeyCalc (l : List Char) : Option String :=
  (lit keyCalcLbl l).bind fun r =>
  (lastPre2Stars (r.takeWhile notNL)).bind fun g =>
  some (String.mk g)

/-- Lazy DOTALL `(.+?)` terminated by `\n\n` (for
`## Standards Table\n(.+?)\n\n`): the smallest nonempty prefix after which a
blank line follows. -/
def bodyUpTo : List Char → List Char → Option (List Char)
  | _, [] => none
  | acc, c :: cs =>
    if cs.take 2 = ['\n', '\n'] then some (c :: acc).reverse
    else bodyUpTo (c :: acc) cs

def matchTable (l : List Char) : Option (List Char) :=
  (lit tableHeading l).bind fun r => bodyUpTo [] r

/-! ### The repeating well patterns (`re.findall`) -/

/-- The five groups of the standard-well pattern (line 199). -/
structure StdTup where
  well : String
  conc : String
  val : String
  red : String
  date : String
deriving DecidableEq, Repr

/-- One attempt of
`- \*\*(A\d)\*\*: ([\d\.]+) Std - ([\d\.e,]+) \(Reduced: ([\d\.e,]+)\) - Date: ([\d\-: ]+)`
at the head of the input.  Each `[...]+` is greedy; no backtracking is needed
because each literal that follows a class starts with a character outside
that class. -/
def matchA (l : List Char) : Option (StdTup × List Char) :=
  (lit wellPfx l).bind fun r1 =>
  (chLit 'A' r1).bind fun r2 =>
  (chPred Char.isDigit r2).bind fun d =>
  (lit wellSep d.2).bind fun r3 =>
  (cls1 isConcChar r3).bind fun conc =>
  (lit stdMid conc.2).bind fun r4 =>
  (cls1 isValChar r4).bind fun v =>
  (lit reducedLbl v.2).bind fun r5 =>
  (cls1 isValChar r5).bind fun rd =>
  (lit dateLbl rd.2).bind fun r6 =>
  (cls1 isDateChar r6).bind fun dt =>
  some (⟨String.mk ['A', d.1], String.mk conc.1, String.mk v.1, String.mk rd.1, String.mk dt.1⟩, dt.2)

/-- The five groups of the control-well pattern (line 210); the last three
are `none` when the `Date: No Data` branch matched (Python's `findall` yields
`""` there, and line 216's `if val` tests exactly that nonemptiness). -/
structure CtrlTup where
  well : String
  sample : String
  val : Option String
  red : Option String
  date : Option String
deriving DecidableEq, Repr

/-- The tail ` - (?:([\d\.e,]+) \(Reduced: ([\d\.e,]+)\) - Date: ([\d\-: ]+)|Date: No Data)`
of the control-well pattern.  The value branch is tried first, as in the
regex.  When its leading class fails, the `Date: No Data` branch is tried;
when the class succeeds but a later literal fails, neither branch can match
(shorter greedy splits put a class character where a literal space is
expected, and the second branch needs `D`, which is outside the class), so
returning `none` there is faithful. -/
def trySepBranch (l : List Char) :
    Option ((Option String × Option String × Option String) × List Char) :=
  (lit ctrlSep l).bind fun r =>
  match cls1 isValChar r with
  | some v =>
    (lit reducedLbl v.2).bind fun r2 =>
    (cls1 isValChar r2).bind fun rd =>
    (lit dateLbl rd.2).bind fun r3 =>
    (cls1 isDateChar r3).bind fun dt =>
    some ((some (String.mk v.1), some (String.mk rd.1), some (String.mk dt.1)), dt.2)
  | none =>
    (lit noDataLit r).bind fun r1 => some ((none, none, none), r1)

/-- The lazy `(.+?)` of the control-well pattern: grow the sample one
non-newline character at a time, after each character trying the ` - (...)`
continuation. -/
def lazySample (acc : List Char) :
    List Char → Option (List Char × (Option String × Option String × Option String) × List Char)
  | [] => none
  | c :: cs =>
    if c = '\n' then none
    else
      match trySepBranch cs with
      | some (bt, r) => some ((c :: acc).reverse, bt, r)
      | none => lazySample (c :: acc) cs

/-- One attempt of the control-well pattern
`- \*\*(B\d)\*\*: (.+?) - (?:...|Date: No Data)` at the head of the input. -/
def matchB (l : List Char) : Option (CtrlTup × List Char) :=
  (lit wellPfx l).bind fun r1 =>
  (chLit 'B' r1).bind fun r2 =>
  (chPred Char.isDigit r2).bind fun d =>
  (lit wellSep d.2).bind fun r3 =>
  (lazySample [] r3).bind fun s =>
  some (⟨String.mk ['B', d.1], String.mk s.1, s.2.1.1, s.2.1.2.1, s.2.1.2.2⟩, s.2.2)

/-- `re.findall` for the standard-well pattern: scan left to right; a match
consumes its matched text (non-overlapping), a failure advances one
character.  The `Nat` argument counts characters still to skip because the
previous match consumed them. -/
def findallAAux : List Char → Nat → List StdTup
  | [], _ => []
  | _ :: cs, k + 1 => findallAAux cs k
  | c :: cs, 0 =>
    match matchA (c :: cs) with
    | some (t, r) => t :: findallAAux cs (cs.length - r.length)
    | none => findallAAux cs 0

def findallA (l : List Char) : List StdTup := findallAAux l 0

/-- `re.findall` for the control-well pattern. -/
def findallBAux : List Char → Nat → List CtrlTup
  | [], _ => []
  | _ :: cs, k + 1 => findallBAux cs k
  | c :: cs, 0 =>
    match matchB (c :: cs) with
    | some (t, r) => t :: findallBAux cs (cs.length - r.length)
    | none => findallBAux cs 0

def findallB (l : List Char) : List CtrlTup := findallBAux l 0

/-! ### The structured record -/

structure StdWell where
  well : String
  concentration : ℚ
  fluorescence_value : ℚ
  reduced_value : ℚ
  date : String
deriving DecidableEq, Repr

structure CtrlWell where
  well : String
  sample_type : String
  fluorescence_value : Option ℚ
  reduced_value : Option ℚ
  date : Option String
deriving DecidableEq, Repr

/-- A standards-table cell: a float when `float(...)` succeeded, otherwise
the trimmed string. -/
inductive CellValue where
  | num : ℚ → CellValue
  | str : String → CellValue
deriving DecidableEq, Repr

structure DocumentInfo where
  title : Option String := none
  document_title : Option String := none
  qc_protocol : Option String := none
  status : Option String := none
  date : Option String := none
deriving DecidableEq, Repr

structure InstrumentSettings where
  wavelength_combination : Option String := none
deriving DecidableEq, Repr

structure InstrumentInfo where
  instrument : Option String := none
  rom : Option String := none
  start_read : Option String := none
  mean_temperature : Option String := none
  operator : Option String := none
deriving DecidableEq, Repr

structure SampleData where
  standard_curve_wells : List StdWell
  control_and_sample_wells : List CtrlWell
deriving DecidableEq, Repr

/-- `row[h]` is keyed by header; Python dict insertion order is kept and a
duplicate header overwrites in place, which `dictSet` mirrors. -/
structure StandardsTable where
  headers : List String
  data : List (List (String × CellValue))
deriving DecidableEq, Repr

structure StructuredRecord where
  document_info : DocumentInfo
  instrument_settings : InstrumentSettings
  instrument_info : InstrumentInfo
  sample_data : SampleData
  standards_table : StandardsTable
  key_calculation : Option String
  full_content : String
deriving DecidableEq, Repr

/-! ### Conversions (the loop bodies, which can raise) -/

def pyFloatE (s : String) : Except PyErr ℚ :=
  match pyFloat? s with
  | some q => .ok q
  | none => .error .valueError

/-- Lines 200-207: one standard-well record.  `float(conc)` (no comma
stripping!) and `float(val.replace(",", ""))` can raise `ValueError`. -/
def convStd (t : StdTup) : Except PyErr StdWell :=
  match pyFloatE t.conc with
  | .error e => .error e
  | .ok conc =>
  match pyFloatE (stripCommas t.val) with
  | .error e => .error e
  | .ok v =>
  match pyFloatE (stripCommas t.red) with
  | .error e => .error e
  | .ok rd => .ok ⟨t.well, conc, v, rd, t.date⟩

def convOptVal : Option String → Except PyErr (Option ℚ)
  | none => .ok none
  | some s =>
    match pyFloatE (stripCommas s) with
    | .error e => .error e
    | .ok q => .ok (some q)

/-- Lines 211-219: one control/sample-well record; groups absent because the
`Date: No Data` branch matched become `None`, and `sample.strip()` trims the
sample type. -/
def convCtrl (t : CtrlTup) : Except PyErr CtrlWell :=
  match convOptVal t.val with
  | .error e => .error e
  | .ok v =>
  match convOptVal t.red with
  | .error e => .error e
  | .ok rd => .ok ⟨t.well, pyStrip t.sample, v, rd, t.date⟩

/-- A Python `for` loop appending converted items: the first raised exception
aborts the whole call. -/
def exMapM {α β : Type} (f : α → Except PyErr β) : List α → Except PyErr (List β)
  | [] => .ok []
  | a :: rest =>
    match f a with
    | .error e => .error e
    | .ok b =>
      match exMapM f rest with
      | .error e => .error e
      | .ok bs => .ok (b :: bs)

/-- `row[h] = v` on a Python dict rendered as an insertion-ordered
association list. -/
def dictSet : List (String × CellValue) → String → CellValue → List (String × CellValue)
  | [], k, v => [(k, v)]
  | (k1, v1) :: rest, k, v =>
    if k1 = k then (k, v) :: rest else (k1, v1) :: dictSet rest k v

/-- Lines 230-234: `try: row[h] = float(cols[i].replace(',', '')) except:
row[h] = cols[i]`.  An in-range cell falls back to the raw string when
`float` fails; an out-of-range index raises `IndexError` inside the `try`,
and the bare `except` handler evaluates `cols[i]` again, re-raising
`IndexError` uncaught. -/
def cellValue (cols : List String) (i : Nat) : Except PyErr CellValue :=
  match cols.get? i with
  | none => .error .indexError
  | some c =>
    match pyFloat? (stripCommas c) with
    | some q => .ok (.num q)
    | none => .ok (.str c)

def buildRowAux (cols : List String) :
    List (Nat × String) → List (String × CellValue) → Except PyErr (List (String × CellValue))
  | [], row => .ok row
  | (i, h) :: rest, row =>
    match cellValue cols i with
    | .error e => .error e
    | .ok v => buildRowAux cols rest (dictSet row h v)

/-- `[c.strip() for c in line.split("|")[1:-1]]`. -/
def splitCells (line : List Char) : List String :=
  (((pySplitChar '|' line).drop 1).dropLast).map fun c => String.mk (pyStripL c)

/-- Lines 222-235: locate `## Standards Table\n(.+?)\n\n` with `re.DOTALL`,
strip and split the block into lines, take the headers from line 0, skip the
separator line, and zip each remaining row positionally against the headers. -/
def extractTable (l : List Char) : Except PyErr StandardsTable :=
  match scan1 matchTable l with
  | none => .ok ⟨[], []⟩
  | some body =>
    let tableLines := pySplitChar '\n' (pyStripL body)
    let headers := splitCells (tableLines.headD [])
    match exMapM (fun line => buildRowAux (splitCells line) headers.enum []) (tableLines.drop 2) with
    | .error e => .error e
    | .ok rows => .ok ⟨headers, rows⟩

/-- `parse_page_content_to_json` (lines 140-242).  The single-field searches
cannot raise; the three loops run in source order (standard wells, control
wells, standards table) and the first exception aborts the call. -/
def parse_page_content_to_json (page_content : String) : Except PyErr StructuredRecord :=
  let l := page_content.data
  match exMapM convStd (findallA l) with
  | .error e => .error e
  | .ok scw =>
  match exMapM convCtrl (findallB l) with
  | .error e => .error e
  | .ok ccw =>
  match extractTable l with
  | .error e => .error e
  | .ok tbl =>
    .ok {
      document_info := {
        title := (scan1 (matchLabeled docTitleLbl) l).map pyStrip
        document_title := (scan1 (matchLabeled titleLbl) l).map pyStrip
        qc_protocol := (scan1 matchQC l).map pyStrip
        status := (scan1 (matchWord statusLbl) l).map pyStrip
        date := scan1 matchDate l }
      instrument_settings := { wavelength_combination := scan1 (matchWord wlLbl) l }
      instrument_info := {
        instrument := (scan1 (matchLabeled instrLbl) l).map pyStrip
        rom := (scan1 (matchLabeled romLbl) l).map pyStrip
        start_read := (scan1 (matchLabeled startReadLbl) l).map pyStrip
        mean_temperature := scan1 matchTemp l
        operator := (scan1 (matchLabeledCI readByLbl) l).map pyStrip }
      sample_data := { standard_curve_wells := scw, control_and_sample_wells := ccw }
      standards_table := tbl
      key_calculation := (scan1 matchKeyCalc l).map pyStrip
      full_content := page_content }

deriving instance DecidableEq for Except

/-! ### Concrete inputs and records used by the claims -/

/-- The record with every optional field absent and both well lists empty. -/
def emptyRecord (t : String) : StructuredRecord where
  document_info := {}
  instrument_settings := {}
  instrument_info := {}
  sample_data := ⟨[], []⟩
  standards_table := ⟨[], []⟩
  key_calculation := none
  full_content := t

/-- A standards table whose data row is shorter than its header row. -/
def c1Input : String := "## Standards Table\n| A | B |\n|---|---|\n| 1 |\n\n"

/-- A standards table whose data row is longer than its header row. -/
def c2MoreInput : String := "## Standards Table\n| A | B |\n|---|---|\n| 1 | 2 | 3 |\n\n"

def c2MoreRecord : StructuredRecord :=
  { emptyRecord c2MoreInput with
    standards_table := ⟨["A", "B"], [[("A", .num 1), ("B", .num 2)]]⟩ }

/-- Three headers over a two-cell data row. -/
def c2FewerInput : String := "## Standards Table\n| A | B | C |\n|---|---|---|\n| 1 | 2 |\n\n"

/-- The standard-curve line of the specification example. -/
def c3Line : String := "- **A1**: 5.0 Std - 1,234.5 (Reduced: 1,200.0) - Date: 01-01-2024 10:00:00"

def c3Tup : StdTup := ⟨"A1", "5.0", "1,234.5", "1,200.0", "01-01-2024 10:00:00"⟩

def c3Well : StdWell := ⟨"A1", 5, 2469 / 2, 1200, "01-01-2024 10:00:00"⟩

def c3WitnessRecord : StructuredRecord :=
  { emptyRecord c3Line with sample_data := ⟨[c3Well], []⟩ }

/-- ` - Date: No Data`, the suffix of a no-data control-well line. -/
def noDataSfx : List Char := ctrlSep ++ noDataLit

/-- A full control-well line of the no-data form
`- **B<d>**: <st> - Date: No Data`. -/
def noDataLine (d : Char) (st : List Char) : List Char :=
  wellPfx ++ 'B' :: d :: (wellSep ++ (st ++ noDataSfx))

def c4Input : String := "- **B1**: Control - Date: No Data"

def b1Well : CtrlWell := ⟨"B1", "Control", none, none, none⟩

def c4WitnessRecord : StructuredRecord :=
  { emptyRecord c4Input with sample_data := ⟨[], [b1Well]⟩ }

def c5Input : String := "## Standards Table\n| A | B |\n|---|---|\n| 1.5 | x |\n\n"

def c5Record : StructuredRecord :=
  { emptyRecord c5Input with
    standards_table := ⟨["A", "B"], [[("A", .num (3 / 2)), ("B", .str "x")]]⟩ }

def c6Input : String := "hello"

def c7Input : String := "**Instrument:** NovoStar\n**Instrument:** Other\n"

def c7WitnessRecord : StructuredRecord :=
  { emptyRecord c7Input with instrument_info := { instrument := some "NovoStar" } }

/-- A standard-curve line whose concentration has a thousands separator. -/
def c9Input : String := "- **A1**: 1,000 Std - 5.0 (Reduced: 4.0) - Date: 01-01-2024 10:00:00"

/-- A standards table at the very end of the text, with no blank line. -/
def c10Input : String := "## Standards Table\n| A | B |\n|---|---|\n| 1.5 | 2 |"

/-! Lines and fragments for the ordering claim. -/

def a1Line : String := "- **A1**: 5.0 Std - 10.0 (Reduced: 9.0) - Date: 01-01-2024 10:00:00"

def a2Line : String := "- **A2**: 7.5 Std - 20.0 (Reduced: 19.0) - Date: 01-01-2024 10:05:00"

def b1Line : String := "- **B1**: Control - Date: No Data"

def b2Line : String := "- **B2**: Sample X - 2,500.5 (Reduced: 2400.0) - Date: 02-01-2024 11:00:00"

def a1Tup : StdTup := ⟨"A1", "5.0", "10.0", "9.0", "01-01-2024 10:00:00"⟩

def a2Tup : StdTup := ⟨"A2", "7.5", "20.0", "19.0", "01-01-2024 10:05:00"⟩

def b1Tup : CtrlTup := ⟨"B1", "Control", none, none, none⟩

def b2Tup : CtrlTup := ⟨"B2", "Sample X", some "2,500.5", some "2400.0", some "02-01-2024 11:00:00"⟩

def a1Well : StdWell := ⟨"A1", 5, 10, 9, "01-01-2024 10:00:00"⟩

def a2Well : StdWell := ⟨"A2", 15 / 2, 20, 19, "01-01-2024 10:05:00"⟩

def b2Well : CtrlWell := ⟨"B2", "Sample X", some (5001 / 2), some 2400, some "02-01-2024 11:00:00"⟩

def c8Table : String := "## Standards Table\n| H1 | H2 |\n|---|---|\n| 1 | 2 |\n| 3 | 4 |\n\n"

def c8Body : List Char := ("| H1 | H2 |\n|---|---|\n| 1 | 2 |\n| 3 | 4 |").data

def c8TableVal : StandardsTable :=
  ⟨["H1", "H2"], [[("H1", .num 1), ("H2", .num 2)], [("H1", .num 3), ("H2", .num 4)]]⟩

/-- Two distinct standard-curve lines (the first repeated), two control
lines, and a standards table, separated by arbitrary line-respecting
filler. -/
def c8Text (pre m1 m2 m3 m4 m5 post : List Char) : List Char :=
  pre ++ a1Line.data ++ m1 ++ a2Line.data ++ m2 ++ a1Line.data ++ m3 ++
    b1Line.data ++ m4 ++ b2Line.data ++ m5 ++ c8Table.data ++ post

def c8WitnessInput : String :=
  String.mk (c8Text [] ['\n'] ['\n'] ['\n'] ['\n'] ['\n'] [])

def c8WitnessRecord : StructuredRecord :=
  { emptyRecord c8WitnessInput with
    sample_data := ⟨[a1Well, a2Well, a1Well], [b1Well, b2Well]⟩
    standards_table := c8TableVal }

/-! ## Lemmas about the primitives -/

theorem lit_eq_append {p : List Char} : ∀ {l r : List Char}, lit p l = some r → l = p ++ r := by
  induction p with
  | nil => intro l r h; rw [lit] at h; cases h; rfl
  | cons p ps ih =>
    intro l r h
    cases l with
    | nil => exact absurd h (by rw [lit]; simp)
    | cons c cs =>
      rw [lit] at h
      split at h
      · next hc => rw [hc, ih h]; rfl
      · exact absurd h (by simp)

theorem lit_self (p r : List Char) : lit p (p ++ r) = some r := by
  induction p with
  | nil => rfl
  | cons c cs ih => rw [List.cons_append, lit, if_pos rfl]; exact ih

theorem chLit_eq {x : Char} {l r : List Char} (h : chLit x l = some r) : l = x :: r := by
  cases l with
  | nil => exact absurd h (by rw [chLit]; simp)
  | cons c cs =>
    rw [chLit] at h
    split at h
    · next hc => cases h; rw [hc]
    · exact absurd h (by simp)

theorem chPred_eq {p : Char → Bool} {l : List Char} {c : Char} {r : List Char}
    (h : chPred p l = some (c, r)) : l = c :: r ∧ p c = true := by
  cases l with
  | nil => exact absurd h (by rw [chPred]; simp)
  | cons x cs =>
    rw [chPred] at h
    split at h
    · next hc => cases h; exact ⟨rfl, hc⟩
    · exact absurd h (by simp)

theorem clsMany_eq {p : Char → Bool} :
    ∀ {l m r : List Char}, clsMany p l = (m, r) → l = m ++ r ∧ ∀ c ∈ m, p c = true := by
  intro l
  induction l with
  | nil =>
    intro m r h
    rw [clsMany] at h
    cases h
    exact ⟨rfl, by simp⟩
  | cons c cs ih =>
    intro m r h
    rw [clsMany] at h
    split at h
    · next hc =>
      rcases hm : clsMany p cs with ⟨m1, r1⟩
      rw [hm] at h
      cases h
      obtain ⟨he, hall⟩ := ih hm
      refine ⟨by rw [he]; rfl, ?_⟩
      intro d hd
      rcases List.mem_cons.mp hd with rfl | hd
      · exact hc
      · exact hall d hd
    · cases h
      exact ⟨rfl, by simp⟩

theorem cls1_eq {p : Char → Bool} {l m r : List Char} (h : cls1 p l = some (m, r)) :
    l = m ++ r ∧ m ≠ [] ∧ ∀ c ∈ m, p c = true := by
  cases l with
  | nil => exact absurd h (by rw [cls1]; simp)
  | cons c cs =>
    rw [cls1] at h
    split at h
    · next hc =>
      rcases hm : clsMany p cs with ⟨m1, r1⟩
      rw [hm] at h
      cases h
      obtain ⟨he, hall⟩ := clsMany_eq hm
      refine ⟨by rw [he]; rfl, by simp, ?_⟩
      intro d hd
      rcases List.mem_cons.mp hd with rfl | hd
      · exact hc
      · exact hall d hd
    · exact absurd h (by simp)

theorem clsMany_stop {p : Char → Bool} {w : Char} (rest : List Char) (hw : p w = false) :
    ∀ {v : List Char}, (∀ c ∈ v, p c = true) → clsMany p (v ++ w :: rest) = (v, w :: rest) := by
  intro v
  induction v with
  | nil => intro _; rw [List.nil_append, clsMany, hw]; simp
  | cons c cs ih =>
    intro hall
    rw [List.cons_append, clsMany, if_pos (hall c (by simp)),
      ih (fun d hd => hall d (List.mem_cons_of_mem c hd))]

theorem cls1_stop {p : Char → Bool} {v : List Char} {w : Char} (rest : List Char)
    (hv : v ≠ []) (hall : ∀ c ∈ v, p c = true) (hw : p w = false) :
    cls1 p (v ++ w :: rest) = some (v, w :: rest) := by
  cases v with
  | nil => exact absurd rfl hv
  | cons c cs =>
    rw [List.cons_append, cls1, if_pos (hall c (by simp)),
      clsMany_stop rest hw (fun d hd => hall d (List.mem_cons_of_mem c hd))]

theorem notNL_ne {c : Char} (h : notNL c = true) : c ≠ '\n' := by
  intro hc
  subst hc
  exact absurd h (by decide)

theorem isConcChar_ne_nl {c : Char} (h : isConcChar c = true) : c ≠ '\n' := by
  intro hc
  subst hc
  exact absurd h (by decide)

theorem isValChar_ne_nl {c : Char} (h : isValChar c = true) : c ≠ '\n' := by
  intro hc
  subst hc
  exact absurd h (by decide)

theorem isDateChar_ne_nl {c : Char} (h : isDateChar c = true) : c ≠ '\n' := by
  intro hc
  subst hc
  exact absurd h (by decide)

theorem scan1_cons_some {α : Type} {m : List Char → Option α} {v : α} {c : Char} {cs : List Char}
    (h : m (c :: cs) = some v) : scan1 m (c :: cs) = some v := by
  rw [scan1, h]

theorem scan1_cons_none {α : Type} {m : List Char → Option α} {c : Char} {cs : List Char}
    (h : m (c :: cs) = none) : scan1 m (c :: cs) = scan1 m cs := by
  rw [scan1, h]

theorem scan1_some_suffix {α : Type} {m : List Char → Option α} {v : α} :
    ∀ {l : List Char}, scan1 m l = some v → ∃ s, s <:+ l ∧ m s = some v := by
  intro l
  induction l with
  | nil => intro h; exact absurd h (by rw [scan1]; simp)
  | cons c cs ih =>
    intro h
    rw [scan1] at h
    split at h
    · next hm => exact ⟨c :: cs, List.suffix_refl _, by rw [hm, h]⟩
    · obtain ⟨s, hs, hm⟩ := ih h
      exact ⟨s, hs.trans (List.suffix_cons c cs), hm⟩

theorem scan1_append_none {α : Type} {m : List Char → Option α} :
    ∀ {pre : List Char} (rest : List Char), (∀ c cs, c ∈ pre → m (c :: cs) = none) →
      scan1 m (pre ++ rest) = scan1 m rest := by
  intro pre
  induction pre with
  | nil => intro rest _; rfl
  | cons c cs ih =>
    intro rest hnone
    rw [List.cons_append, scan1, hnone c _ (by simp)]
    exact ih rest (fun d ds hd => hnone d ds (List.mem_cons_of_mem c hd))

theorem exMapM_ok_mem {α β : Type} {f : α → Except PyErr β} :
    ∀ {l : List α} {ys : List β} {x : α} {y : β},
      exMapM f l = .ok ys → x ∈ l → f x = .ok y → y ∈ ys := by
  intro l
  induction l with
  | nil => intro ys x y _ hx; exact absurd hx (by simp)
  | cons a rest ih =>
    intro ys x y h hx hf
    rw [exMapM] at h
    split at h
    · exact absurd h (by simp)
    · next b hb =>
      split at h
      · exact absurd h (by simp)
      · next bs hbs =>
        cases h
        rcases List.mem_cons.mp hx with rfl | hx
        · rw [hf] at hb
          cases hb
          exact List.mem_cons_self _ _
        · exact List.mem_cons_of_mem b (ih hbs hx hf)

theorem exMapM_sublist {α β : Type} {f : α → Except PyErr β} :
    ∀ {l l' : List α} {ys : List β}, List.Sublist l' l → exMapM f l = .ok ys →
      ∃ ys', exMapM f l' = .ok ys' ∧ List.Sublist ys' ys := by
  intro l l' ys hsub
  induction hsub generalizing ys with
  | slnil => intro h; exact ⟨[], rfl, by cases h; exact List.Sublist.refl _⟩
  | cons a hsub ih =>
    intro h
    rw [exMapM] at h
    split at h
    · exact absurd h (by simp)
    · next b hb =>
      split at h
      · exact absurd h (by simp)
      · next bs hbs =>
        cases h
        obtain ⟨ys', hy, hs⟩ := ih hbs
        exact ⟨ys', hy, hs.cons b⟩
  | cons₂ a hsub ih =>
    intro h
    rw [exMapM] at h
    split at h
    · exact absurd h (by simp)
    · next b hb =>
      split at h
      · exact absurd h (by simp)
      · next bs hbs =>
        cases h
        obtain ⟨ys', hy, hs⟩ := ih hbs
        refine ⟨b :: ys', ?_, hs.cons₂ b⟩
        rw [exMapM, hb, hy]

theorem findallAAux_skip : ∀ (l : List Char) (k : Nat), findallAAux l k = findallAAux (l.drop k) 0 := by
  intro l
  induction l with
  | nil => intro k; cases k <;> rfl
  | cons c cs ih =>
    intro k
    cases k with
    | zero => rfl
    | succ k => rw [findallAAux, List.drop_succ_cons, ih k]

theorem findallBAux_skip : ∀ (l : List Char) (k : Nat), findallBAux l k = findallBAux (l.drop k) 0 := by
  intro l
  induction l with
  | nil => intro k; cases k <;> rfl
  | cons c cs ih =>
    intro k
    cases k with
    | zero => rfl
    | succ k => rw [findallBAux, List.drop_succ_cons, ih k]

theorem matchA_consumed {l : List Char} {t : StdTup} {r : List Char}
    (h : matchA l = some (t, r)) : ∃ u, l = u ++ r ∧ u ≠ [] ∧ '\n' ∉ u := by
  simp only [matchA, Option.bind_eq_some] at h
  obtain ⟨r1, h1, r2, h2, d, h3, r3, h4, conc, h5, r4, h6, v, h7, r5, h8, rd, h9, r6, h10,
    dt, h11, heq⟩ := h
  rw [Option.some.injEq, Prod.mk.injEq] at heq
  obtain ⟨-, hr⟩ := heq
  obtain ⟨e1, hne1, hc1⟩ := cls1_eq h5
  obtain ⟨e2, hne2, hc2⟩ := cls1_eq h7
  obtain ⟨e3, hne3, hc3⟩ := cls1_eq h9
  obtain ⟨e4, hne4, hc4⟩ := cls1_eq h11
  refine ⟨wellPfx ++ 'A' :: d.1 :: (wellSep ++ conc.1 ++ (stdMid ++ v.1 ++
    (reducedLbl ++ rd.1 ++ (dateLbl ++ dt.1)))), ?_, by simp [wellPfx], ?_⟩
  · rw [lit_eq_append h1, chLit_eq h2, (chPred_eq h3).1, lit_eq_append h4, e1,
      lit_eq_append h6, e2, lit_eq_append h8, e3, lit_eq_append h10, e4, ← hr]
    simp
  · have k1 : '\n' ∉ wellPfx := by decide
    have k2 : '\n' ∉ wellSep := by decide
    have k3 : '\n' ∉ stdMid := by decide
    have k4 : '\n' ∉ reducedLbl := by decide
    have k5 : '\n' ∉ dateLbl := by decide
    have k6 : '\n' ∉ conc.1 := fun hm => isConcChar_ne_nl (hc1 _ hm) rfl
    have k7 : '\n' ∉ v.1 := fun hm => isValChar_ne_nl (hc2 _ hm) rfl
    have k8 : '\n' ∉ rd.1 := fun hm => isValChar_ne_nl (hc3 _ hm) rfl
    have k9 : '\n' ∉ dt.1 := fun hm => isDateChar_ne_nl (hc4 _ hm) rfl
    have k11 : '\n' ≠ d.1 := fun he => absurd (chPred_eq h3).2 (by rw [← he]; decide)
    intro hmem
    simp only [List.mem_append, List.mem_cons] at hmem
    tauto

theorem trySepBranch_consumed {l : List Char}
    {bt : Option String × Option String × Option String} {r : List Char}
    (h : trySepBranch l = some (bt, r)) : ∃ u, l = u ++ r ∧ u ≠ [] ∧ '\n' ∉ u := by
  simp only [trySepBranch, Option.bind_eq_some] at h
  obtain ⟨r0, h0, hrest⟩ := h
  have hsep : '\n' ∉ ctrlSep := by decide
  split at hrest
  · next v hv =>
    simp only [Option.bind_eq_some] at hrest
    obtain ⟨r2, h2, rd, h3, r3, h4, dt, h5, heq⟩ := hrest
    rw [Option.some.injEq, Prod.mk.injEq] at heq
    obtain ⟨-, hr⟩ := heq
    obtain ⟨e1, hne1, hc1⟩ := cls1_eq hv
    obtain ⟨e2, hne2, hc2⟩ := cls1_eq h3
    obtain ⟨e3, hne3, hc3⟩ := cls1_eq h5
    refine ⟨ctrlSep ++ (v.1 ++ (reducedLbl ++ rd.1 ++ (dateLbl ++ dt.1))), ?_, by simp [ctrlSep], ?_⟩
    · rw [lit_eq_append h0, e1, lit_eq_append h2, e2, lit_eq_append h4, e3, ← hr]
      simp
    · have k4 : '\n' ∉ reducedLbl := by decide
      have k5 : '\n' ∉ dateLbl := by decide
      have k6 : '\n' ∉ v.1 := fun hm => isValChar_ne_nl (hc1 _ hm) rfl
      have k7 : '\n' ∉ rd.1 := fun hm => isValChar_ne_nl (hc2 _ hm) rfl
      have k8 : '\n' ∉ dt.1 := fun hm => isDateChar_ne_nl (hc3 _ hm) rfl
      intro hmem
      simp only [List.mem_append] at hmem
      tauto
  · simp only [Option.bind_eq_some] at hrest
    obtain ⟨r1, h1, heq⟩ := hrest
    rw [Option.some.injEq, Prod.mk.injEq] at heq
    obtain ⟨-, hr⟩ := heq
    refine ⟨ctrlSep ++ noDataLit, ?_, by simp [ctrlSep], ?_⟩
    · rw [lit_eq_append h0, lit_eq_append h1, ← hr]
      simp
    · intro hmem
      simp only [List.mem_append] at hmem
      rcases hmem with h' | h'
      · exact hsep h'
      · revert h'; decide

theorem lazySample_consumed :
    ∀ {l acc s : List Char} {bt : Option String × Option String × Option String} {r : List Char},
      lazySample acc l = some (s, bt, r) → ∃ u, l = u ++ r ∧ u ≠ [] ∧ '\n' ∉ u := by
  intro l
  induction l with
  | nil => intro acc s bt r h; exact absurd h (by rw [lazySample]; simp)
  | cons c cs ih =>
    intro acc s bt r h
    rw [lazySample] at h
    split at h
    · exact absurd h (by simp)
    · next hc =>
      split at h
      · next bt' r' hts =>
        rw [Option.some.injEq, Prod.mk.injEq] at h
        obtain ⟨-, h⟩ := h
        rw [Prod.mk.injEq] at h
        obtain ⟨-, hr⟩ := h
        obtain ⟨u, he, hu, hnl⟩ := trySepBranch_consumed hts
        refine ⟨c :: u, by rw [he, hr]; rfl, by simp, ?_⟩
        intro hmem
        rcases List.mem_cons.mp hmem with he' | hmem'
        · exact hc he'.symm
        · exact hnl hmem'
      · obtain ⟨u, he, hu, hnl⟩ := ih h
        refine ⟨c :: u, by rw [he]; rfl, by simp, ?_⟩
        intro hmem
        rcases List.mem_cons.mp hmem with he' | hmem'
        · exact hc he'.symm
        · exact hnl hmem'

theorem matchB_consumed {l : List Char} {t : CtrlTup} {r : List Char}
    (h : matchB l = some (t, r)) : ∃ u, l = u ++ r ∧ u ≠ [] ∧ '\n' ∉ u := by
  simp only [matchB, Option.bind_eq_some] at h
  obtain ⟨r1, h1, r2, h2, d, h3, r3, h4, s, h5, heq⟩ := h
  rw [Option.some.injEq, Prod.mk.injEq] at heq
  obtain ⟨-, hr⟩ := heq
  obtain ⟨u, he, hu, hnl⟩ := lazySample_consumed h5
  refine ⟨wellPfx ++ 'B' :: d.1 :: (wellSep ++ u), ?_, by simp [wellPfx], ?_⟩
  · rw [lit_eq_append h1, chLit_eq h2, (chPred_eq h3).1, lit_eq_append h4, he, ← hr]
    simp [matchB]
  · have k1 : '\n' ∉ wellPfx := by decide
    have k2 : '\n' ∉ wellSep := by decide
    have k11 : '\n' ≠ d.1 := fun he' => absurd (chPred_eq h3).2 (by rw [← he']; decide)
    intro hmem
    simp only [List.mem_append, List.mem_cons] at hmem
    tauto

theorem findallA_cons_some {c : Char} {cs : List Char} {t : StdTup} {r : List Char}
    (h : matchA (c :: cs) = some (t, r)) : findallA (c :: cs) = t :: findallA r := by
  obtain ⟨u, he, hu, -⟩ := matchA_consumed h
  cases u with
  | nil => exact absurd rfl hu
  | cons x u' =>
    rw [List.cons_append] at he
    injection he with he1 he2
    unfold findallA
    rw [findallAAux, h, findallAAux_skip]
    rw [he2]
    simp only [List.length_append, Nat.add_sub_cancel]
    rw [findallAAux_skip, List.drop_left]

theorem findallA_cons_none {c : Char} {cs : List Char}
    (h : matchA (c :: cs) = none) : findallA (c :: cs) = findallA cs := by
  unfold findallA
  rw [findallAAux, h]

theorem findallB_cons_some {c : Char} {cs : List Char} {t : CtrlTup} {r : List Char}
    (h : matchB (c :: cs) = some (t, r)) : findallB (c :: cs) = t :: findallB r := by
  obtain ⟨u, he, hu, -⟩ := matchB_consumed h
  cases u with
  | nil => exact absurd rfl hu
  | cons x u' =>
    rw [List.cons_append] at he
    injection he with he1 he2
    unfold findallB
    rw [findallBAux, h, findallBAux_skip]
    rw [he2]
    simp only [List.length_append, Nat.add_sub_cancel]
    rw [findallBAux_skip, List.drop_left]

theorem findallB_cons_none {c : Char} {cs : List Char}
    (h : matchB (c :: cs) = none) : findallB (c :: cs) = findallB cs := by
  unfold findallB
  rw [findallBAux, h]

/-- Key scan lemma: a `findall`-style scanner over a text containing a full
line-bounded match of `mA` reaches that match: no earlier match can consume
into it, because matches never contain a newline and the prefix ends with
one. -/
theorem scanSplit {τ : Type} (fA : List Char → List τ) (mA : List Char → Option (τ × List Char))
    (hcm : ∀ c cs t r, mA (c :: cs) = some (t, r) → fA (c :: cs) = t :: fA r)
    (hcn : ∀ c cs, mA (c :: cs) = none → fA (c :: cs) = fA cs)
    (hspec : ∀ l t r, mA l = some (t, r) → ∃ u, l = u ++ r ∧ u ≠ [] ∧ '\n' ∉ u)
    (L post : List Char) (t : τ)
    (hmatch : mA (L ++ post) = some (t, post)) :
    ∀ pre : List Char, (pre = [] ∨ ∃ p0, pre = p0 ++ ['\n']) →
      ∃ xs, fA (pre ++ (L ++ post)) = xs ++ t :: fA post := by
  have hLne : L ≠ [] := by
    obtain ⟨u, he, hu, -⟩ := hspec _ _ _ hmatch
    have : u = L := List.append_cancel_right he.symm
    rw [← this]
    exact hu
  have hbase : ∃ xs, fA (L ++ post) = xs ++ t :: fA post := by
    cases hL : L with
    | nil => exact absurd hL hLne
    | cons c cs =>
      subst hL
      refine ⟨[], ?_⟩
      rw [List.cons_append] at hmatch
      rw [List.cons_append, hcm c _ t post hmatch, List.nil_append]
  suffices H : ∀ n (pre : List Char), pre.length ≤ n → (pre = [] ∨ ∃ p0, pre = p0 ++ ['\n']) →
      ∃ xs, fA (pre ++ (L ++ post)) = xs ++ t :: fA post by
    intro pre hb
    exact H pre.length pre le_rfl hb
  intro n
  induction n with
  | zero =>
    intro pre hlen hb
    have : pre = [] := List.eq_nil_of_length_eq_zero (Nat.le_zero.mp hlen)
    rw [this, List.nil_append]
    exact hbase
  | succ n ih =>
    intro pre hlen hb
    rcases hb with rfl | ⟨p0, rfl⟩
    · rw [List.nil_append]
      exact hbase
    · cases hp : p0 ++ ['\n'] with
      | nil => exact absurd hp (by simp)
      | cons c pre' =>
        rw [List.cons_append]
        cases hm : mA (c :: (pre' ++ (L ++ post))) with
        | none =>
          rw [hcn _ _ hm]
          have hb' : pre' = [] ∨ ∃ q0, pre' = q0 ++ ['\n'] := by
            cases p0 with
            | nil =>
              left
              injection hp with h1 h2
              exact h2.symm
            | cons d p0' =>
              right
              rw [List.cons_append] at hp
              injection hp with h1 h2
              exact ⟨p0', h2.symm⟩
          have hlen' : pre'.length ≤ n := by
            have : (c :: pre').length ≤ n + 1 := hp ▸ hlen
            exact Nat.le_of_succ_le_succ this
          exact ih pre' hlen' hb'
        | some tr =>
          rcases tr with ⟨t', r⟩
          rw [hcm _ _ _ _ hm]
          obtain ⟨u, he, hu, hnl⟩ := hspec _ _ _ hm
          have he2 : u ++ r = p0 ++ ('\n' :: (L ++ post)) := by
            rw [← he, ← List.cons_append, ← hp]
            simp
          rcases List.append_eq_append_iff.mp he2 with ⟨a1, ha1, hr⟩ | ⟨c1, hc1, hd⟩
          · have hr' : r = (a1 ++ ['\n']) ++ (L ++ post) := by
              rw [hr]
              simp
            have hlen' : (a1 ++ ['\n']).length ≤ n := by
              have h1 : (p0 ++ ['\n']).length ≤ n + 1 := hp ▸ hlen
              rw [ha1] at h1
              simp only [List.length_append, List.length_cons, List.length_nil] at h1 ⊢
              have hu1 : 1 ≤ u.length := by
                cases u with
                | nil => exact absurd rfl hu
                | cons _ _ => simp
              omega
            obtain ⟨xs', hxs⟩ := ih (a1 ++ ['\n']) hlen' (Or.inr ⟨a1, rfl⟩)
            rw [← hr'] at hxs
            exact ⟨t' :: xs', by rw [hxs]; rfl⟩
          · cases c1 with
            | nil =>
              rw [List.append_nil] at hc1
              have hr' : r = ['\n'] ++ (L ++ post) := by
                rw [List.nil_append] at hd
                rw [← hd]
                rfl
              have hlen' : (['\n'] : List Char).length ≤ n := by
                have h1 : (p0 ++ ['\n']).length ≤ n + 1 := hp ▸ hlen
                have hp0 : p0 ≠ [] := by
                  intro h0
                  rw [h0] at hc1
                  exact hu hc1
                have : 1 ≤ p0.length := by
                  cases p0 with
                  | nil => exact absurd rfl hp0
                  | cons _ _ => simp
                simp only [List.length_append, List.length_cons, List.length_nil] at h1
                simp only [List.length_cons, List.length_nil]
                omega
              obtain ⟨xs', hxs⟩ := ih ['\n'] hlen' (Or.inr ⟨[], rfl⟩)
              rw [← hr'] at hxs
              exact ⟨t' :: xs', by rw [hxs]; rfl⟩
            | cons x c1' =>
              exfalso
              injection hd with hd1 hd2
              apply hnl
              rw [hc1, ← hd1]
              simp

theorem parse_ok_elim {t : String} {r : StructuredRecord}
    (h : parse_page_content_to_json t = .ok r) :
    exMapM convStd (findallA t.data) = .ok r.sample_data.standard_curve_wells ∧
    exMapM convCtrl (findallB t.data) = .ok r.sample_data.control_and_sample_wells ∧
    extractTable t.data = .ok r.standards_table ∧
    r.instrument_info.instrument = (scan1 (matchLabeled instrLbl) t.data).map pyStrip := by
  simp only [parse_page_content_to_json] at h
  split at h
  · exact absurd h (by simp)
  · next scw hscw =>
    split at h
    · exact absurd h (by simp)
    · next ccw hccw =>
      split at h
      · exact absurd h (by simp)
      · next tbl htbl =>
        cases h
        exact ⟨hscw, hccw, htbl, rfl⟩

theorem matchA_at_c3 (q : List Char) (hq : q = [] ∨ ∃ u, q = '\n' :: u) :
    matchA (c3Line.data ++ q) = some (c3Tup, q) := by
  rcases hq with rfl | ⟨u, rfl⟩ <;> rfl

/-- C3: any text containing the specification's standard-curve example line
`- **A1**: 5.0 Std - 1,234.5 (Reduced: 1,200.0) - Date: 01-01-2024 10:00:00`
as a full line yields, when parsing succeeds, the record
`{well: "A1", concentration: 5.0, fluorescence_value: 1234.5,
reduced_value: 1200.0, date: "01-01-2024 10:00:00"}` among the
standard-curve wells: the comma thousands separators are stripped before
float conversion. -/
theorem c3_standard_line_record (pre post : List Char)
    (hpre : pre = [] ∨ ∃ p0, pre = p0 ++ ['\n'])
    (hpost : post = [] ∨ ∃ q0, post = '\n' :: q0)
    (r : StructuredRecord)
    (h : parse_page_content_to_json (String.mk (pre ++ (c3Line.data ++ post))) = .ok r) :
    c3Well ∈ r.sample_data.standard_curve_wells := by
  obtain ⟨hscw, -, -, -⟩ := parse_ok_elim h
  obtain ⟨xs, hxs⟩ := scanSplit findallA matchA
    (fun c cs t r h => findallA_cons_some h)
    (fun c cs h => findallA_cons_none h)
    (fun l t r h => matchA_consumed h)
    c3Line.data post c3Tup (matchA_at_c3 post hpost) pre hpre
  rw [show (String.mk (pre ++ (c3Line.data ++ post))).data = pre ++ (c3Line.data ++ post) from rfl,
    hxs] at hscw
  have hconv : convStd c3Tup = .ok c3Well := by with_unfolding_all rfl
  have hmem : c3Tup ∈ xs ++ c3Tup :: findallA post := by simp
  exact exMapM_ok_mem hscw hmem hconv

theorem trySep_terminal (post : List Char) :
    trySepBranch (ctrlSep ++ (noDataLit ++ post)) = some ((none, none, none), post) := rfl

theorem trySep_fail {st : List Char} (hsep : ¬ ctrlSep <:+: st) (post : List Char) :
    ∀ cs, cs ≠ [] → cs <:+ st →
      trySepBranch (cs ++ (ctrlSep ++ (noDataLit ++ post))) = none := by
  have ec : ctrlSep = ' ' :: '-' :: [' '] := rfl
  intro cs hne hsuf
  cases cs with
  | nil => exact absurd rfl hne
  | cons a tl =>
    rw [List.cons_append]
    by_cases ha : a = ' '
    · subst ha
      cases tl with
      | nil => rfl
      | cons b u =>
        rw [List.cons_append]
        by_cases hb : b = '-'
        · subst hb
          cases u with
          | nil => rfl
          | cons v w =>
            rw [List.cons_append]
            by_cases hv : v = ' '
            · subst hv
              exfalso
              apply hsep
              have hpfx : ctrlSep <+: ' ' :: '-' :: ' ' :: w := ⟨w, by rw [ec]; rfl⟩
              exact hpfx.isInfix.trans hsuf.isInfix
            · have h3 : lit ctrlSep (' ' :: '-' :: v :: (w ++ (ctrlSep ++ (noDataLit ++ post)))) = none := by
                rw [ec, lit, if_pos rfl, lit, if_pos rfl, lit, if_neg hv]
              simp [trySepBranch, h3]
        · have h3 : lit ctrlSep (' ' :: b :: (u ++ (ctrlSep ++ (noDataLit ++ post)))) = none := by
            rw [ec, lit, if_pos rfl, lit, if_neg hb]
          simp [trySepBranch, h3]
    · have h3 : lit ctrlSep (a :: (tl ++ (ctrlSep ++ (noDataLit ++ post)))) = none := by
        rw [ec, lit, if_neg ha]
      simp [trySepBranch, h3]

theorem lazySample_noData {st : List Char} (post : List Char)
    (hnl : ∀ c ∈ st, c ≠ '\n') (hsep : ¬ ctrlSep <:+: st) :
    ∀ cs acc, cs ≠ [] → cs <:+ st →
      lazySample acc (cs ++ (ctrlSep ++ (noDataLit ++ post))) =
        some (acc.reverse ++ cs, (none, none, none), post) := by
  intro cs
  induction cs with
  | nil => intro acc h _; exact absurd rfl h
  | cons c tl ih =>
    intro acc hne hsuf
    have hc : c ≠ '\n' := hnl c (hsuf.subset (List.mem_cons_self c tl))
    rw [List.cons_append, lazySample, if_neg hc]
    cases tl with
    | nil =>
      rw [List.nil_append, trySep_terminal]
      simp
    | cons c2 tl2 =>
      have hsuf2 : (c2 :: tl2) <:+ st := by
        obtain ⟨p, hp⟩ := hsuf
        exact ⟨p ++ [c], by rw [← hp]; simp⟩
      rw [trySep_fail hsep post (c2 :: tl2) (by simp) hsuf2]
      rw [ih (c :: acc) (by simp) hsuf2]
      simp

theorem matchB_noData {st : List Char} (post : List Char) (d : Char) (hd : d.isDigit = true)
    (hne : st ≠ []) (hnl : ∀ c ∈ st, c ≠ '\n') (hsep : ¬ ctrlSep <:+: st) :
    matchB (noDataLine d st ++ post) =
      some (⟨String.mk ['B', d], String.mk st, none, none, none⟩, post) := by
  have e1 : noDataLine d st ++ post =
      wellPfx ++ ('B' :: d :: (wellSep ++ (st ++ (ctrlSep ++ (noDataLit ++ post))))) := by
    simp [noDataLine, noDataSfx]
  rw [e1]
  simp only [matchB, lit_self, Option.bind_eq_bind, Option.some_bind]
  rw [show chLit 'B' ('B' :: d :: (wellSep ++ (st ++ (ctrlSep ++ (noDataLit ++ post))))) =
    some (d :: (wellSep ++ (st ++ (ctrlSep ++ (noDataLit ++ post))))) from by rw [chLit, if_pos rfl]]
  simp only [Option.some_bind]
  rw [show chPred Char.isDigit (d :: (wellSep ++ (st ++ (ctrlSep ++ (noDataLit ++ post))))) =
    some (d, wellSep ++ (st ++ (ctrlSep ++ (noDataLit ++ post)))) from by rw [chPred, if_pos hd]]
  simp only [Option.some_bind]
  rw [lit_self]
  simp only [Option.some_bind]
  rw [lazySample_noData post hnl hsep st [] hne (List.suffix_refl st)]
  simp

/-- C4: a control-well line `- **B<d>**: <sample> - Date: No Data` whose
`Date: No Data` branch matches appends a record whose fluorescence value,
reduced value and date are all `none` (not zero, not empty strings), while
the well id and the whitespace-trimmed sample type are populated. -/
theorem c4_no_data_absent (pre st post : List Char) (d : Char)
    (hd : d.isDigit = true) (hne : st ≠ []) (hnl : ∀ c ∈ st, c ≠ '\n')
    (hsep : ¬ ctrlSep <:+: st)
    (hpre : pre = [] ∨ ∃ p0, pre = p0 ++ ['\n'])
    (r : StructuredRecord)
    (h : parse_page_content_to_json (String.mk (pre ++ (noDataLine d st ++ post))) = .ok r) :
    (⟨String.mk ['B', d], pyStrip (String.mk st), none, none, none⟩ : CtrlWell) ∈
      r.sample_data.control_and_sample_wells := by
  obtain ⟨-, hccw, -, -⟩ := parse_ok_elim h
  obtain ⟨xs, hxs⟩ := scanSplit findallB matchB
    (fun c cs t r h => findallB_cons_some h)
    (fun c cs h => findallB_cons_none h)
    (fun l t r h => matchB_consumed h)
    (noDataLine d st) post ⟨String.mk ['B', d], String.mk st, none, none, none⟩
    (matchB_noData post d hd hne hnl hsep) pre hpre
  rw [show (String.mk (pre ++ (noDataLine d st ++ post))).data =
    pre ++ (noDataLine d st ++ post) from rfl, hxs] at hccw
  have hconv : convCtrl ⟨String.mk ['B', d], String.mk st, none, none, none⟩ =
      .ok ⟨String.mk ['B', d], pyStrip (String.mk st), none, none, none⟩ := by
    simp [convCtrl, convOptVal]
  have hmem : (⟨String.mk ['B', d], String.mk st, none, none, none⟩ : CtrlTup) ∈
      xs ++ (⟨String.mk ['B', d], String.mk st, none, none, none⟩ : CtrlTup) :: findallB post := by
    simp
  exact exMapM_ok_mem hccw hmem hconv

theorem matchLabeled_instr_head {x : Char} (hx : x ≠ '*') (rest : List Char) :
    matchLabeled instrLbl (x :: rest) = none := by
  have h3 : lit instrLbl (x :: rest) = none := by
    rw [show instrLbl = '*' :: ("*Instrument:** ").data from rfl, lit, if_neg hx]
  simp [matchLabeled, h3]

theorem matchLabeled_at (lbl v tail : List Char) (hv : v ≠ [])
    (hnl : ∀ c ∈ v, c ≠ '\n') :
    matchLabeled lbl (lbl ++ (v ++ '\n' :: tail)) = some (String.mk v) := by
  have hall : ∀ c ∈ v, notNL c = true := by
    intro c hc
    simp only [notNL, bne_iff_ne, ne_eq]
    exact hnl c hc
  simp only [matchLabeled, lit_self, Option.some_bind]
  rw [cls1_stop tail hv hall (by decide)]
  rfl

/-- C7: for the single-value labeled `**Instrument:** ` field (the cited
exemplar, lines 178-180), an input with two occurrences of the label stores
only the first occurrence's value; the later occurrence is ignored whatever
it contains. -/
theorem c7_first_instrument_wins (pre v1 mid v2 post : List Char)
    (hpre : ∀ c ∈ pre, c ≠ '*')
    (hv1 : v1 ≠ []) (hnl : ∀ c ∈ v1, c ≠ '\n')
    (r : StructuredRecord)
    (h : parse_page_content_to_json (String.mk
      (pre ++ (instrLbl ++ (v1 ++ '\n' :: (mid ++ (instrLbl ++ (v2 ++ '\n' :: post))))))) = .ok r) :
    r.instrument_info.instrument = some (pyStrip (String.mk v1)) := by
  obtain ⟨-, -, -, hinstr⟩ := parse_ok_elim h
  rw [show (String.mk (pre ++ (instrLbl ++ (v1 ++ '\n' :: (mid ++ (instrLbl ++
      (v2 ++ '\n' :: post))))))).data = pre ++ (instrLbl ++ (v1 ++ '\n' :: (mid ++ (instrLbl ++
      (v2 ++ '\n' :: post))))) from rfl] at hinstr
  rw [scan1_append_none _ (fun c cs hc => matchLabeled_instr_head (hpre c hc) cs)] at hinstr
  have hm := matchLabeled_at instrLbl v1 (mid ++ (instrLbl ++ (v2 ++ '\n' :: post))) hv1 hnl
  have e : instrLbl ++ (v1 ++ '\n' :: (mid ++ (instrLbl ++ (v2 ++ '\n' :: post)))) =
      '*' :: (("*Instrument:** ").data ++ (v1 ++ '\n' :: (mid ++ (instrLbl ++
        (v2 ++ '\n' :: post))))) := rfl
  rw [e] at hm
  rw [e, scan1_cons_some hm] at hinstr
  rw [hinstr]
  rfl

/-- C6: when none of the extraction patterns matches anywhere in the input,
the parser returns (without raising) the record whose document info,
instrument settings and instrument info are empty, whose well lists are
empty, whose standards table has empty headers and data, whose key
calculation is absent, and whose `full_content` is the input verbatim. -/
theorem c6_no_match_empty (t : String)
    (h1 : scan1 (matchLabeled docTitleLbl) t.data = none)
    (h2 : scan1 (matchLabeled titleLbl) t.data = none)
    (h3 : scan1 matchQC t.data = none)
    (h4 : scan1 (matchWord statusLbl) t.data = none)
    (h5 : scan1 matchDate t.data = none)
    (h6 : scan1 (matchWord wlLbl) t.data = none)
    (h7 : scan1 (matchLabeled instrLbl) t.data = none)
    (h8 : scan1 (matchLabeled romLbl) t.data = none)
    (h9 : scan1 (matchLabeled startReadLbl) t.data = none)
    (h10 : scan1 matchTemp t.data = none)
    (h11 : scan1 (matchLabeledCI readByLbl) t.data = none)
    (h12 : findallA t.data = [])
    (h13 : findallB t.data = [])
    (h14 : scan1 matchTable t.data = none)
    (h15 : scan1 matchKeyCalc t.data = none) :
    parse_page_content_to_json t = .ok (emptyRecord t) := by
  simp only [parse_page_content_to_json, extractTable, emptyRecord,
    h1, h2, h3, h4, h5, h6, h7, h8, h9, h10, h11, h12, h13, h14, h15, exMapM]
  rfl

theorem bodyUpTo_blank : ∀ {l acc b : List Char}, bodyUpTo acc l = some b →
    ['\n', '\n'] <:+: l := by
  intro l
  induction l with
  | nil => intro acc b h; exact absurd h (by rw [bodyUpTo]; simp)
  | cons c cs ih =>
    intro acc b h
    rw [bodyUpTo] at h
    split at h
    · next htake =>
      have hcs : ∃ rest, cs = '\n' :: '\n' :: rest := by
        cases cs with
        | nil => simp at htake
        | cons a as =>
          cases as with
          | nil => simp at htake
          | cons a2 as2 =>
            simp [List.take] at htake
            exact ⟨as2, by rw [htake.1, htake.2]⟩
      obtain ⟨rest, rfl⟩ := hcs
      exact ⟨[c], rest, rfl⟩
    · exact (ih h).trans (List.suffix_cons c cs).isInfix

theorem matchTable_blank {l b : List Char} (h : matchTable l = some b) :
    ['\n', '\n'] <:+: l := by
  simp only [matchTable, Option.bind_eq_some] at h
  obtain ⟨r, hr, hb⟩ := h
  rw [lit_eq_append hr]
  exact (bodyUpTo_blank hb).trans (List.suffix_append tableHeading r).isInfix

/-- C10: a `## Standards Table` block that is not followed by a blank line
anywhere after it - formalised as: an input containing no `\n\n` at all,
e.g. a table at the very end of the text - is not extracted: headers and
data stay empty, because the pattern requires a terminating `\n\n`. -/
theorem c10_no_blank_line_no_table (t : String) (r : StructuredRecord)
    (hnn : ¬ ['\n', '\n'] <:+: t.data)
    (h : parse_page_content_to_json t = .ok r) :
    r.standards_table = ⟨[], []⟩ := by
  obtain ⟨-, -, htbl, -⟩ := parse_ok_elim h
  have hscan : scan1 matchTable t.data = none := by
    cases hs : scan1 matchTable t.data with
    | none => rfl
    | some b =>
      obtain ⟨s, hsuf, hm⟩ := scan1_some_suffix hs
      exact absurd ((matchTable_blank hm).trans hsuf.isInfix) hnn
  simp only [extractTable, hscan, Except.ok.injEq] at htbl
  exact htbl.symm

theorem matchA_at_a1 (q : List Char) (hq : q = [] ∨ ∃ u, q = '\n' :: u) :
    matchA (a1Line.data ++ q) = some (a1Tup, q) := by
  rcases hq with rfl | ⟨u, rfl⟩ <;> rfl

theorem matchA_at_a2 (q : List Char) (hq : q = [] ∨ ∃ u, q = '\n' :: u) :
    matchA (a2Line.data ++ q) = some (a2Tup, q) := by
  rcases hq with rfl | ⟨u, rfl⟩ <;> rfl

theorem matchB_at_b1 (q : List Char) : matchB (b1Line.data ++ q) = some (b1Tup, q) := rfl

theorem matchB_at_b2 (q : List Char) (hq : q = [] ∨ ∃ u, q = '\n' :: u) :
    matchB (b2Line.data ++ q) = some (b2Tup, q) := by
  rcases hq with rfl | ⟨u, rfl⟩ <;> rfl

theorem sublist_cons_append {α : Type} (a : α) (xs l1 l2 : List α) (h : List.Sublist l1 l2) :
    List.Sublist (a :: l1) (xs ++ a :: l2) := by
  induction xs with
  | nil => exact h.cons₂ a
  | cons x xs ih => exact ih.cons x

/-- C8: standard-curve and control well records appear in the output in the
same first-to-last order as their source lines (the `A1` record precedes the
`A2` record, the `B1` record precedes the `B2` record), no deduplication is
performed (the repeated `A1` line yields two equal entries), and the
standards-table rows keep their order of appearance. -/
theorem c8_order_and_duplicates (pre m1 m2 m3 m4 m5 post : List Char)
    (hpre : pre = [] ∨ ∃ p0, pre = p0 ++ ['\n'])
    (hm1s : ∃ u, m1 = '\n' :: u) (hm1e : ∃ u, m1 = u ++ ['\n'])
    (hm2s : ∃ u, m2 = '\n' :: u) (hm2e : ∃ u, m2 = u ++ ['\n'])
    (hm3s : ∃ u, m3 = '\n' :: u) (hm3e : ∃ u, m3 = u ++ ['\n'])
    (hm4s : ∃ u, m4 = '\n' :: u) (hm4e : ∃ u, m4 = u ++ ['\n'])
    (hm5s : ∃ u, m5 = '\n' :: u)
    (htab : scan1 matchTable (c8Text pre m1 m2 m3 m4 m5 post) = some c8Body)
    (r : StructuredRecord)
    (h : parse_page_content_to_json (String.mk (c8Text pre m1 m2 m3 m4 m5 post)) = .ok r) :
    List.Sublist [a1Well, a2Well, a1Well] r.sample_data.standard_curve_wells ∧
    List.Sublist [b1Well, b2Well] r.sample_data.control_and_sample_wells ∧
    r.standards_table = c8TableVal := by
  obtain ⟨hscw, hccw, htblr, -⟩ := parse_ok_elim h
  rw [show (String.mk (c8Text pre m1 m2 m3 m4 m5 post)).data =
    c8Text pre m1 m2 m3 m4 m5 post from rfl] at hscw hccw htblr
  obtain ⟨u1, rfl⟩ := hm1s
  obtain ⟨u2, rfl⟩ := hm2s
  obtain ⟨u3, rfl⟩ := hm3s
  obtain ⟨u4, rfl⟩ := hm4s
  obtain ⟨u5, rfl⟩ := hm5s
  refine ⟨?_, ?_, ?_⟩
  · obtain ⟨xs1, hxs1⟩ := scanSplit findallA matchA
      (fun c cs t r h => findallA_cons_some h)
      (fun c cs h => findallA_cons_none h)
      (fun l t r h => matchA_consumed h)
      a1Line.data (('\n' :: u1) ++ (a2Line.data ++ (('\n' :: u2) ++ (a1Line.data ++ (('\n' :: u3) ++ (b1Line.data ++ (('\n' :: u4) ++ (b2Line.data ++ (('\n' :: u5) ++ (c8Table.data ++ post)))))))))) a1Tup
      (matchA_at_a1 (('\n' :: u1) ++ (a2Line.data ++ (('\n' :: u2) ++ (a1Line.data ++ (('\n' :: u3) ++ (b1Line.data ++ (('\n' :: u4) ++ (b2Line.data ++ (('\n' :: u5) ++ (c8Table.data ++ post)))))))))) (Or.inr ⟨u1 ++ (a2Line.data ++ (('\n' :: u2) ++ (a1Line.data ++ (('\n' :: u3) ++ (b1Line.data ++ (('\n' :: u4) ++ (b2Line.data ++ (('\n' :: u5) ++ (c8Table.data ++ post))))))))), List.cons_append '\n' u1 _⟩))
      pre hpre
    obtain ⟨xs2, hxs2⟩ := scanSplit findallA matchA
      (fun c cs t r h => findallA_cons_some h)
      (fun c cs h => findallA_cons_none h)
      (fun l t r h => matchA_consumed h)
      a2Line.data (('\n' :: u2) ++ (a1Line.data ++ (('\n' :: u3) ++ (b1Line.data ++ (('\n' :: u4) ++ (b2Line.data ++ (('\n' :: u5) ++ (c8Table.data ++ post)))))))) a2Tup
      (matchA_at_a2 (('\n' :: u2) ++ (a1Line.data ++ (('\n' :: u3) ++ (b1Line.data ++ (('\n' :: u4) ++ (b2Line.data ++ (('\n' :: u5) ++ (c8Table.data ++ post)))))))) (Or.inr ⟨u2 ++ (a1Line.data ++ (('\n' :: u3) ++ (b1Line.data ++ (('\n' :: u4) ++ (b2Line.data ++ (('\n' :: u5) ++ (c8Table.data ++ post))))))), List.cons_append '\n' u2 _⟩))
      ('\n' :: u1) (Or.inr hm1e)
    obtain ⟨xs3, hxs3⟩ := scanSplit findallA matchA
      (fun c cs t r h => findallA_cons_some h)
      (fun c cs h => findallA_cons_none h)
      (fun l t r h => matchA_consumed h)
      a1Line.data (('\n' :: u3) ++ (b1Line.data ++ (('\n' :: u4) ++ (b2Line.data ++ (('\n' :: u5) ++ (c8Table.data ++ post)))))) a1Tup
      (matchA_at_a1 (('\n' :: u3) ++ (b1Line.data ++ (('\n' :: u4) ++ (b2Line.data ++ (('\n' :: u5) ++ (c8Table.data ++ post)))))) (Or.inr ⟨u3 ++ (b1Line.data ++ (('\n' :: u4) ++ (b2Line.data ++ (('\n' :: u5) ++ (c8Table.data ++ post))))), List.cons_append '\n' u3 _⟩))
      ('\n' :: u2) (Or.inr hm2e)
    rw [show c8Text pre ('\n' :: u1) ('\n' :: u2) ('\n' :: u3) ('\n' :: u4) ('\n' :: u5) post =
      pre ++ (a1Line.data ++ (('\n' :: u1) ++ (a2Line.data ++ (('\n' :: u2) ++ (a1Line.data ++ (('\n' :: u3) ++ (b1Line.data ++ (('\n' :: u4) ++ (b2Line.data ++ (('\n' :: u5) ++ (c8Table.data ++ post))))))))))) from by rw [c8Text]; simp [List.append_assoc]] at hscw
    rw [hxs1, hxs2, hxs3] at hscw
    have hsub : List.Sublist [a1Tup, a2Tup, a1Tup]
        (xs1 ++ a1Tup :: (xs2 ++ a2Tup :: (xs3 ++ a1Tup :: findallA (('\n' :: u3) ++ (b1Line.data ++ (('\n' :: u4) ++ (b2Line.data ++ (('\n' :: u5) ++ (c8Table.data ++ post))))))))) := by
      refine sublist_cons_append a1Tup xs1 _ _ ?_
      refine sublist_cons_append a2Tup xs2 _ _ ?_
      exact sublist_cons_append a1Tup xs3 _ _ (List.nil_sublist _)
    obtain ⟨ys, hys, hsub2⟩ := exMapM_sublist hsub hscw
    have hysv : exMapM convStd [a1Tup, a2Tup, a1Tup] = .ok [a1Well, a2Well, a1Well] := by
      with_unfolding_all rfl
    rw [hysv, Except.ok.injEq] at hys
    rw [← hys] at hsub2
    exact hsub2
  · obtain ⟨w3, hw3⟩ := hm3e
    have eB : c8Text pre ('\n' :: u1) ('\n' :: u2) ('\n' :: u3) ('\n' :: u4) ('\n' :: u5) post =
        (pre ++ (a1Line.data ++ (('\n' :: u1) ++ (a2Line.data ++ (('\n' :: u2) ++ (a1Line.data ++ ('\n' :: u3))))))) ++ (b1Line.data ++ (('\n' :: u4) ++ (b2Line.data ++ (('\n' :: u5) ++ (c8Table.data ++ post))))) := by
      rw [c8Text]
      simp [List.append_assoc]
    rw [eB] at hccw
    have hQ : (pre ++ (a1Line.data ++ (('\n' :: u1) ++ (a2Line.data ++ (('\n' :: u2) ++ (a1Line.data ++ ('\n' :: u3))))))) = (pre ++ (a1Line.data ++ (('\n' :: u1) ++ (a2Line.data ++ (('\n' :: u2) ++ (a1Line.data ++ w3)))))) ++ ['\n'] := by
      rw [hw3]
      simp [List.append_assoc]
    obtain ⟨ys1, hys1⟩ := scanSplit findallB matchB
      (fun c cs t r h => findallB_cons_some h)
      (fun c cs h => findallB_cons_none h)
      (fun l t r h => matchB_consumed h)
      b1Line.data (('\n' :: u4) ++ (b2Line.data ++ (('\n' :: u5) ++ (c8Table.data ++ post)))) b1Tup (matchB_at_b1 (('\n' :: u4) ++ (b2Line.data ++ (('\n' :: u5) ++ (c8Table.data ++ post)))))
      (pre ++ (a1Line.data ++ (('\n' :: u1) ++ (a2Line.data ++ (('\n' :: u2) ++ (a1Line.data ++ ('\n' :: u3))))))) (Or.inr ⟨(pre ++ (a1Line.data ++ (('\n' :: u1) ++ (a2Line.data ++ (('\n' :: u2) ++ (a1Line.data ++ w3)))))), hQ⟩)
    obtain ⟨ys2, hys2⟩ := scanSplit findallB matchB
      (fun c cs t r h => findallB_cons_some h)
      (fun c cs h => findallB_cons_none h)
      (fun l t r h => matchB_consumed h)
      b2Line.data (('\n' :: u5) ++ (c8Table.data ++ post)) b2Tup
      (matchB_at_b2 (('\n' :: u5) ++ (c8Table.data ++ post)) (Or.inr ⟨u5 ++ (c8Table.data ++ post), List.cons_append '\n' u5 _⟩))
      ('\n' :: u4) (Or.inr hm4e)
    rw [hys1, hys2] at hccw
    have hsub : List.Sublist [b1Tup, b2Tup]
        (ys1 ++ b1Tup :: (ys2 ++ b2Tup :: findallB (('\n' :: u5) ++ (c8Table.data ++ post)))) := by
      refine sublist_cons_append b1Tup ys1 _ _ ?_
      exact sublist_cons_append b2Tup ys2 _ _ (List.nil_sublist _)
    obtain ⟨ys, hys, hsub2⟩ := exMapM_sublist hsub hccw
    have hysv : exMapM convCtrl [b1Tup, b2Tup] = .ok [b1Well, b2Well] := by
      with_unfolding_all rfl
    rw [hysv, Except.ok.injEq] at hys
    rw [← hys] at hsub2
    exact hsub2
  · have hext : extractTable (c8Text pre ('\n' :: u1) ('\n' :: u2) ('\n' :: u3) ('\n' :: u4)
        ('\n' :: u5) post) = .ok c8TableVal := by
      rw [extractTable, htab]
      with_unfolding_all rfl
    rw [hext, Except.ok.injEq] at htblr
    exact htblr.symm

/-- C1 (the code violates it): on a standards table whose data row is
shorter than its header row, the parser raises `IndexError` (re-raised from
inside the bare `except` handler at line 234) instead of returning a
record. -/
theorem c1_short_row_raises : parse_page_content_to_json c1Input = .error .indexError := by
  with_unfolding_all rfl

/-- C2 (the code violates its second half): a data row longer than the
header row silently ignores the extra cells, but a data row shorter than the
header row raises `IndexError` instead of producing missing keys. -/
theorem c2_row_length_policy :
    parse_page_content_to_json c2MoreInput = .ok c2MoreRecord ∧
    parse_page_content_to_json c2FewerInput = .error .indexError := by
  constructor
  · with_unfolding_all rfl
  · with_unfolding_all rfl

/-- C5: the standards-table block with header `| A | B |` and data row
`| 1.5 | x |` yields headers `["A", "B"]` and the single row
`{A: 1.5, B: "x"}`: the numeric cell is converted after comma stripping, the
non-numeric cell falls back to the trimmed string, and the parse succeeds. -/
theorem c5_table_example : parse_page_content_to_json c5Input = .ok c5Record := by
  with_unfolding_all rfl

/-- C9: a standard-curve line whose concentration contains a comma
(`1,000`) produces no standard-curve well record at all, because `[\d\.]+`
does not admit commas; the parse succeeds with both well lists empty. -/
theorem c9_comma_concentration : parse_page_content_to_json c9Input = .ok (emptyRecord c9Input) := by
  with_unfolding_all rfl

theorem c3_witness :
    parse_page_content_to_json c3Line = .ok c3WitnessRecord ∧
    c3Well ∈ c3WitnessRecord.sample_data.standard_curve_wells :=
  ⟨by with_unfolding_all rfl,
   c3_standard_line_record [] [] (Or.inl rfl) (Or.inl rfl) c3WitnessRecord
     (by with_unfolding_all rfl)⟩

theorem c4_witness :
    parse_page_content_to_json c4Input = .ok c4WitnessRecord ∧
    (⟨String.mk ['B', '1'], pyStrip (String.mk ("Control").data), none, none, none⟩ : CtrlWell) ∈
      c4WitnessRecord.sample_data.control_and_sample_wells :=
  ⟨by with_unfolding_all rfl,
   c4_no_data_absent [] ("Control").data [] '1' (by decide) (by decide) (by decide) (by decide)
     (Or.inl rfl) c4WitnessRecord (by with_unfolding_all rfl)⟩

theorem c6_witness :
    scan1 (matchLabeled docTitleLbl) c6Input.data = none ∧
    scan1 (matchLabeled titleLbl) c6Input.data = none ∧
    scan1 matchQC c6Input.data = none ∧
    scan1 (matchWord statusLbl) c6Input.data = none ∧
    scan1 matchDate c6Input.data = none ∧
    scan1 (matchWord wlLbl) c6Input.data = none ∧
    scan1 (matchLabeled instrLbl) c6Input.data = none ∧
    scan1 (matchLabeled romLbl) c6Input.data = none ∧
    scan1 (matchLabeled startReadLbl) c6Input.data = none ∧
    scan1 matchTemp c6Input.data = none ∧
    scan1 (matchLabeledCI readByLbl) c6Input.data = none ∧
    findallA c6Input.data = [] ∧
    findallB c6Input.data = [] ∧
    scan1 matchTable c6Input.data = none ∧
    scan1 matchKeyCalc c6Input.data = none ∧
    parse_page_content_to_json c6Input = .ok (emptyRecord c6Input) :=
  ⟨rfl, rfl, rfl, rfl, rfl, rfl, rfl, rfl, rfl, rfl, rfl, rfl, rfl, rfl, rfl,
   c6_no_match_empty c6Input rfl rfl rfl rfl rfl rfl rfl rfl rfl rfl rfl rfl rfl rfl rfl⟩

theorem c7_witness :
    parse_page_content_to_json c7Input = .ok c7WitnessRecord ∧
    c7WitnessRecord.instrument_info.instrument = some (pyStrip (String.mk ("NovoStar").data)) :=
  ⟨by with_unfolding_all rfl,
   c7_first_instrument_wins [] ("NovoStar").data [] ("Other").data [] (by simp) (by decide)
     (by decide) c7WitnessRecord (by with_unfolding_all rfl)⟩

theorem c8_witness :
    parse_page_content_to_json c8WitnessInput = .ok c8WitnessRecord ∧
    scan1 matchTable (c8Text [] ['\n'] ['\n'] ['\n'] ['\n'] ['\n'] []) = some c8Body ∧
    (List.Sublist [a1Well, a2Well, a1Well] c8WitnessRecord.sample_data.standard_curve_wells ∧
     List.Sublist [b1Well, b2Well] c8WitnessRecord.sample_data.control_and_sample_wells ∧
     c8WitnessRecord.standards_table = c8TableVal) :=
  ⟨by with_unfolding_all rfl, by with_unfolding_all rfl,
   c8_order_and_duplicates [] ['\n'] ['\n'] ['\n'] ['\n'] ['\n'] [] (Or.inl rfl)
     ⟨[], rfl⟩ ⟨[], rfl⟩ ⟨[], rfl⟩ ⟨[], rfl⟩ ⟨[], rfl⟩ ⟨[], rfl⟩ ⟨[], rfl⟩ ⟨[], rfl⟩ ⟨[], rfl⟩
     (by with_unfolding_all rfl) c8WitnessRecord (by with_unfolding_all rfl)⟩

theorem c10_witness :
    ¬ ['\n', '\n'] <:+: c10Input.data ∧
    (emptyRecord c10Input).standards_table = ⟨[], []⟩ :=
  ⟨by decide,
   c10_no_blank_line_no_table c10Input (emptyRecord c10Input) (by decide)
     (by with_unfolding_all rfl)⟩
